import Mathlib

/-!
Shallow embedding of the request-routing and dispatch engine of the
cargoal HTTP server: route table, path matcher (`find_route`,
`match_dynamic_path`, `extract_params`, `get_allowed_methods` from
`src/cargoal/src/routes/routing/router.rs`), the auto-derived regex
pattern construction of `add_route`, the connection dispatcher's
route-resolution branch (`handle_connection` in
`src/cargoal/src/routes/server/core.rs`), the static asset guard
(`sanitize_static_path`), and response serialization (`format_response`
in `src/src/routes/http/response.rs`).

Rust `String` is modelled by Lean `String`; `HashMap<String, String>`
by either a lookup function `String → Option String` (request params)
or an association list kept key-unique (response headers) — the claims
under study never depend on hash-iteration order.  A compiled
`regex::Regex` value is modelled abstractly by `CompiledRegex`, a pair
of an `is_match` function and a named-capture extraction function;
concrete instances carry a doc comment naming the regex literal they
denote.  Filesystem operations used by the static-asset guard are
modelled by an abstract `FileSys` interface.
-/

namespace Cargoal

/-! ### Character-list utilities mirroring Rust `str` operations -/

/-- Rust `str::replace` restricted to a single-character pattern `c`:
every occurrence of `c` is replaced by the character list `r`. -/
def replaceCharL (c : Char) (r : List Char) : List Char → List Char
  | [] => []
  | x :: xs => if x = c then r ++ replaceCharL c r xs else x :: replaceCharL c r xs

/-- Rust `str::split(c)`: split at every occurrence of `c`; the result is
never empty and keeps empty segments (as Rust's `split` does). -/
def splitOnCharL (c : Char) : List Char → List (List Char)
  | [] => [[]]
  | x :: xs =>
    match splitOnCharL c xs with
    | [] => [[]]
    | s :: rest => if x = c then [] :: s :: rest else (x :: s) :: rest

/-- Substring test on character lists (Rust `str::contains` with a `&str`
pattern): some contiguous run of `l` equals `pat`. -/
def listContainsSub (pat : List Char) : List Char → Bool
  | [] => pat.isEmpty
  | c :: cs => pat.isPrefixOf (c :: cs) || listContainsSub pat cs

/-- Rust `str::contains(pat)`. -/
def strContains (s pat : String) : Bool :=
  listContainsSub pat.data s.data

/-- Rust `str::starts_with(c)` for a single character. -/
def startsWithChar (c : Char) (s : String) : Bool :=
  decide (s.data.head? = some c)

/-- Rust `str::ends_with('/')`. -/
def endsWithSlash (s : String) : Bool :=
  decide (s.data.getLast? = some '/')

/-- Rust `str::trim_end_matches('/')`: drop every trailing `'/'`. -/
def trimEndSlashes (s : String) : String :=
  ⟨(s.data.reverse.dropWhile (fun c => c = '/')).reverse⟩

/-- Rust `Vec::join(sep)` on strings. -/
def joinSep (sep : String) : List String → String
  | [] => ""
  | [x] => x
  | x :: y :: xs => x ++ sep ++ joinSep sep (y :: xs)

/-- `List.intercalate` on character lists, used by the spec-worded
per-segment pattern construction. -/
def joinL (sep : List Char) : List (List Char) → List Char
  | [] => []
  | [x] => x
  | x :: y :: xs => x ++ sep ++ joinL sep (y :: xs)

/-! ### HTTP data model (`src/cargoal/src/routes/http`) -/

/-- `HttpMethod` enum from `src/src/routes/http/method.rs`. -/
inductive HttpMethod where
  | GET | POST | PUT | DELETE | PATCH | OPTIONS | HEAD | TRACE | CONNECT
  | OTHER (s : String)
  deriving DecidableEq, Repr

/-- The `Display` implementation of `HttpMethod`. -/
def HttpMethod.toStr : HttpMethod → String
  | .GET => "GET"
  | .POST => "POST"
  | .PUT => "PUT"
  | .DELETE => "DELETE"
  | .PATCH => "PATCH"
  | .OPTIONS => "OPTIONS"
  | .HEAD => "HEAD"
  | .TRACE => "TRACE"
  | .CONNECT => "CONNECT"
  | .OTHER s => s

/-- `Request` from `src/cargoal/src/routes/http/request.rs`; the
`params` hash map is modelled as a lookup function. -/
structure Request where
  path : String
  method : HttpMethod
  body : Option String
  params : String → Option String

/-- `Response` from `src/src/routes/http/response.rs`; the headers
hash map is an association list kept key-unique by `withHeader`. -/
structure Response where
  status_code : Nat
  headers : List (String × String)
  body : Option String
  deriving DecidableEq, Repr

/-- `Response::new(status_code, body)`. -/
def Response.new (status_code : Nat) (body : Option String) : Response :=
  ⟨status_code, [], body⟩

/-- `Response::with_header(key, value)`: `HashMap::insert` semantics
(overwrites an existing entry for the same key). -/
def Response.withHeader (r : Response) (k v : String) : Response :=
  { r with headers := r.headers.filter (fun p => decide (p.1 ≠ k)) ++ [(k, v)] }

/-- A compiled `regex::Regex`, abstracted to its observable behaviour:
`isMatch` is `Regex::is_match` and `captures` the association list of
named-capture values that the `extract_params` loop of
`router.rs` collects (empty when the regex does not match). -/
structure CompiledRegex where
  isMatch : String → Bool
  captures : String → List (String × String)

/-- `Route` from `src/cargoal/src/routes/routing/route.rs`
(field order as in the source). -/
structure Route where
  subdomain : Option String
  path : String
  method : HttpMethod
  handler : Request → Response
  regex : Option CompiledRegex
  middlewares : List (Request → Option Response)

/-! ### Path matcher (`src/cargoal/src/routes/routing/router.rs`) -/

/-- `Router::match_dynamic_path(route_path, request_path)`: equal
segment counts and every non-`:`-prefixed route segment literally equal
to the corresponding request segment. -/
def matchDynamicPath (routePath requestPath : String) : Bool :=
  let routeParts := splitOnCharL '/' routePath.data
  let requestParts := splitOnCharL '/' requestPath.data
  decide (routeParts.length = requestParts.length) &&
    (routeParts.zip requestParts).all
      (fun pq => decide (pq.1.head? = some ':') || decide (pq.1 = pq.2))

/-- `route.regex.as_ref().map_or(false, |re| re.is_match(path))`. -/
def regexMatchValue : Option CompiledRegex → String → Bool
  | some re, path => re.isMatch path
  | none, _ => false

/-- The candidate predicate of `Router::find_route`: method equality,
exact subdomain equality, and exact path ∨ regex match ∨ dynamic
segment match. -/
def routeMatches (path : String) (method : HttpMethod) (subdomain : Option String)
    (route : Route) : Bool :=
  decide (route.method = method) && decide (route.subdomain = subdomain) &&
    (decide (route.path = path) || regexMatchValue route.regex path ||
      matchDynamicPath route.path path)

/-- `Router::find_route(path, method, subdomain)`:
`self.routes.iter().find(...)` over the registration-ordered table. -/
def find_route (routes : List Route) (path : String) (method : HttpMethod)
    (subdomain : Option String) : Option Route :=
  routes.find? (routeMatches path method subdomain)

/-- `Router::get_allowed_methods(path, subdomain)`: filter on
(`subdomain` unset ∨ equal) ∧ (exact path ∨ dynamic match), then map to
the method, in registration order. -/
def get_allowed_methods (routes : List Route) (path : String)
    (subdomain : Option String) : List HttpMethod :=
  (routes.filter (fun route =>
      (route.subdomain.isNone || decide (route.subdomain = subdomain)) &&
        (decide (route.path = path) || matchDynamicPath route.path path))).map
    (fun route => route.method)

/-- `Router::extract_params(route, request_path)`: named captures when
the route has a compiled regex, otherwise the `:`-token segments zipped
with the request segments (`trim_start_matches(':')` on the name). -/
def extract_params (route : Route) (requestPath : String) : List (String × String) :=
  match route.regex with
  | some re => re.captures requestPath
  | none =>
    ((splitOnCharL '/' route.path.data).zip (splitOnCharL '/' requestPath.data)).foldl
      (fun acc pq =>
        if pq.1.head? = some ':' then
          acc ++ [(⟨pq.1.dropWhile (fun c => c = ':')⟩, ⟨pq.2⟩)]
        else acc) []

/-! ### `Router::add_route` pattern-string construction -/

/-- The auto-derived pattern string built by `add_route` when the path
contains `':'` and no explicit regex was supplied: replace every `':'`
with `"(?P<"`, escape every `'/'`, append `">[^/]+)"` once at the very
end, and anchor with `'^'`/`'$'`. -/
def dynamicPatternString (path : String) : String :=
  ⟨"^".data ++
    (replaceCharL '/' "\\/".data (replaceCharL ':' "(?P<".data path.data) ++
      ">[^/]+)".data) ++ "$".data⟩

/-- The pattern string stored on the new route by `add_route`:
the explicit regex when supplied, otherwise the auto-derived pattern
when the path contains `':'`, otherwise nothing
(`compiled_regex.or(compiled_dynamic_regex)`). -/
def storedPatternString (regex : Option String) (path : String) : Option String :=
  match regex with
  | some r => some r
  | none =>
    if ':' ∈ path.data then some (dynamicPatternString path) else none

/-- Follows the spec's words (claim C2), not the source: each `:name`
segment becomes the named capture `(?P<name>[^/]+)`, every literal `/`
is escaped, and the whole pattern is anchored at both ends. -/
def specAutoPattern (path : String) : String :=
  ⟨"^".data ++
    joinL "\\/".data ((splitOnCharL '/' path.data).map
      (fun seg =>
        if seg.head? = some ':' then "(?P<".data ++ seg.tail ++ ">[^/]+)".data
        else seg)) ++ "$".data⟩

/-! ### Connection dispatcher, route-resolution branch
(`handle_connection` in `src/cargoal/src/routes/server/core.rs`).
The raw-byte reading, parsing, subdomain derivation and `/static/`
branch happen before this point in the source; the functions below
model everything the dispatcher does once it holds the parsed request,
the resolved subdomain and the route table. -/

/-- `request.params.extend(route_params)`: `HashMap::extend`, i.e. a
sequence of inserts, each overwriting any existing entry for its key. -/
def extendParams (m : String → Option String) (kvs : List (String × String)) :
    String → Option String :=
  kvs.foldl (fun acc kv => fun x => if x = kv.1 then some kv.2 else acc x) m

/-- The sequential middleware loop: the first middleware returning a
response short-circuits. -/
def runMiddlewares (mws : List (Request → Option Response)) (req : Request) :
    Option Response :=
  List.findSome? (fun mw => mw req) mws

/-- The body of the `Found` branch after the regex re-check: run the
route-scoped middlewares, merge the extracted path parameters into the
request, then invoke the handler. -/
def dispatchMatched (route : Route) (req : Request) : Response :=
  match runMiddlewares route.middlewares req with
  | some resp => resp
  | none =>
    route.handler
      { req with params := extendParams req.params (extract_params route req.path) }

/-- The `Found` branch of the dispatcher: when the route carries a
compiled regex that does not match the request path, answer 404,
otherwise proceed to `dispatchMatched`. -/
def dispatchFound (route : Route) (req : Request) : Response :=
  match route.regex with
  | some re =>
    if re.isMatch req.path = false then Response.new 404 (some "Not Found")
    else dispatchMatched route req
  | none => dispatchMatched route req

/-- The no-route branch of the dispatcher: 405 with an `Allow` header
when some route has exactly the request's path and subdomain, else
404. -/
def dispatchUnmatched (routes : List Route) (req : Request)
    (subdomain : Option String) : Response :=
  if routes.any (fun r =>
      decide (r.subdomain = subdomain) && decide (r.path = req.path)) then
    (Response.new 405 (some "Method Not Allowed")).withHeader "Allow"
      (joinSep ", " ((get_allowed_methods routes req.path subdomain).map
        HttpMethod.toStr))
  else Response.new 404 (some "Not Found")

/-- The dispatcher's route-resolution branch: global middlewares first,
then the trailing-slash redirect decision, then the path matcher. -/
def handleRouteResolution (routes : List Route)
    (gmws : List (Request → Option Response)) (req : Request)
    (subdomain : Option String) : Response :=
  match runMiddlewares gmws req with
  | some resp => resp
  | none =>
    if endsWithSlash req.path = true ∧ req.path ≠ "/" ∧
        (find_route routes (trimEndSlashes req.path) req.method subdomain).isSome = true then
      (Response.new 301 none).withHeader "Location" (trimEndSlashes req.path)
    else
      match find_route routes req.path req.method subdomain with
      | some route => dispatchFound route req
      | none => dispatchUnmatched routes req subdomain

/-! ### Static asset guard (`sanitize_static_path` in `core.rs`) -/

/-- The filesystem operations `sanitize_static_path` performs, held
abstract: `canonicalize` is `fs::canonicalize` (`none` on error) and
`isSymlink` is `fs::symlink_metadata(...).file_type().is_symlink()`
(`none` when the metadata call errors). -/
structure FileSys where
  canonicalize : String → Option String
  isSymlink : String → Option Bool

/-- Rust `Path::starts_with`: component-wise prefix, both arguments
being canonical absolute paths here. -/
def pathStartsWith (root p : String) : Bool :=
  (splitOnCharL '/' root.data).isPrefixOf (splitOnCharL '/' p.data)

/-- `sanitize_static_path(requested_file, static_dirs)` from `core.rs`:
the two string rejections, then canonicalize the root, join, reject
symlinks unconditionally, canonicalize, and require the result to start
with the canonical root. -/
def sanitize_static_path (fs : FileSys) (requested_file : String)
    (static_dirs : String) : Option String :=
  if strContains requested_file ".." = true ∨ strContains requested_file "./" = true ∨
      strContains requested_file ".\\" = true then none
  else if startsWithChar '/' requested_file = true ∨
      startsWithChar '\\' requested_file = true then none
  else
    match fs.canonicalize static_dirs with
    | none => none
    | some root =>
      match fs.isSymlink (root ++ "/" ++ requested_file) with
      | none => none
      | some true => none
      | some false =>
        match fs.canonicalize (root ++ "/" ++ requested_file) with
        | none => none
        | some c => if pathStartsWith root c = true then some c else none

/-! ### Response serialization (`src/src/routes/http/response.rs`) -/

/-- `format_response(response)`: status line with the literal reason
phrase `OK`, the headers, a blank line, then the body. -/
def format_response (r : Response) : String :=
  let line := "HTTP/1.1 " ++ toString r.status_code ++ " OK\r\n"
  let withHeaders :=
    r.headers.foldl (fun acc p => acc ++ (p.1 ++ ": " ++ p.2 ++ "\r\n")) line
  let withSep := withHeaders ++ "\r\n"
  match r.body with
  | some b => withSep ++ b
  | none => withSep

/-! ### Spec-worded definitions used by refinement comparisons -/

/-- De-duplication keeping the first occurrence, in order. -/
def dedupGo (seen : List HttpMethod) : List HttpMethod → List HttpMethod
  | [] => []
  | m :: ms => if m ∈ seen then dedupGo seen ms else m :: dedupGo (m :: seen) ms

/-- De-duplicate a method list keeping first occurrences. -/
def dedupKeepFirst (ms : List HttpMethod) : List HttpMethod :=
  dedupGo [] ms

/-- Follows the spec's words (claim C4), not the source: the
de-duplicated methods of the routes registered for exactly this path
and exactly this subdomain, in registration order. -/
def allowedMethodsSpec (routes : List Route) (path : String)
    (subdomain : Option String) : List HttpMethod :=
  dedupKeepFirst
    ((routes.filter (fun r =>
        decide (r.subdomain = subdomain) && decide (r.path = path))).map
      (fun r => r.method))

/-- Follows the amended claim C3's words: the merged parameter map is
last-write-wins — the value of the last extracted path parameter with
this name when one exists, the original entry otherwise. -/
def mergeSpec (m : String → Option String) (kvs : List (String × String))
    (k : String) : Option String :=
  match kvs.reverse.find? (fun p => decide (p.1 = k)) with
  | some p => some p.2
  | none => m k

/-! ### Concrete instances used by witnesses and counterexamples -/

/-- A handler returning 200 with a fixed body. -/
def constHandler (s : String) : Request → Response :=
  fun _ => Response.new 200 (some s)

/-- A handler echoing the request's `id` parameter as the body. -/
def echoIdHandler : Request → Response :=
  fun req => Response.new 200 (req.params "id")

/-- `order_handler` from `src/tests/utils/handlers.rs`: 200 with the
order id in the body when the `order_id` parameter is present, 400
`Missing order ID` otherwise. -/
def orderHandler : Request → Response :=
  fun req =>
    match req.params "order_id" with
    | some order_id =>
      Response.new 200 (some ("Details about order ID: " ++ order_id))
    | none => Response.new 400 (some "Missing order ID")

/-- An empty parameter map. -/
def noParams : String → Option String := fun _ => none

/-- Semantics of the compiled auto-derived regex
`^\/u\/(?P<id>[^/]+)$`: the path is `/u/` followed by one or more
non-`/` characters, captured as `id`. -/
def uIdRegex : CompiledRegex where
  isMatch := fun s =>
    "/u/".data.isPrefixOf s.data && decide (s.data.drop 3 ≠ []) &&
      (s.data.drop 3).all (fun c => decide (c ≠ '/'))
  captures := fun s =>
    if "/u/".data.isPrefixOf s.data ∧ s.data.drop 3 ≠ [] ∧
        (s.data.drop 3).all (fun c => decide (c ≠ '/')) = true then
      [("id", ⟨s.data.drop 3⟩)]
    else []

/-- The character class `[a-zA-Z0-9_-]`. -/
def isOrderChar (c : Char) : Bool :=
  c.isAlpha || c.isDigit || decide (c = '_') || decide (c = '-')

/-- Semantics of the compiled explicit regex `^[a-zA-Z0-9_-]+$` (the
pattern named by claim C8): the whole subject is one or more characters
of the class; it has no named capture group. -/
def orderSegRegex : CompiledRegex where
  isMatch := fun s => decide (s.data ≠ []) && s.data.all isOrderChar
  captures := fun _ => []

/-- Semantics of the compiled explicit regex
`^/v1/orders/(?P<order_id>[a-zA-Z0-9_-]+)$` (the registration the
repository's `regex_dynamic` test actually uses): the subject is the
literal `/v1/orders/` followed by one or more class characters,
captured as `order_id`. -/
def orderFullRegex : CompiledRegex where
  isMatch := fun s =>
    "/v1/orders/".data.isPrefixOf s.data && decide (s.data.drop 11 ≠ []) &&
      (s.data.drop 11).all isOrderChar
  captures := fun s =>
    if "/v1/orders/".data.isPrefixOf s.data ∧ s.data.drop 11 ≠ [] ∧
        (s.data.drop 11).all isOrderChar = true then
      [("order_id", ⟨s.data.drop 11⟩)]
    else []

/-! ### Helper lemmas -/

theorem replaceCharL_append (c : Char) (r l₁ l₂ : List Char) :
    replaceCharL c r (l₁ ++ l₂) = replaceCharL c r l₁ ++ replaceCharL c r l₂ := by
  induction l₁ with
  | nil => rfl
  | cons x xs ih =>
    simp only [List.cons_append, replaceCharL]
    by_cases hx : x = c
    · simp [hx, ih]
    · simp [hx, ih]

theorem replaceCharL_of_not_mem {c : Char} {l : List Char} (r : List Char)
    (h : c ∉ l) : replaceCharL c r l = l := by
  induction l with
  | nil => rfl
  | cons x xs ih =>
    simp only [List.mem_cons, not_or] at h
    simp only [replaceCharL]
    rw [if_neg (fun hxc => h.1 hxc.symm), ih h.2]

theorem find?_first {α : Type} (p : α → Bool) (l : List α) (a : α) :
    l.find? p = some a ↔
      ∃ i : Fin l.length, l.get i = a ∧ p a = true ∧
        ∀ j : Fin l.length, j.val < i.val → p (l.get j) = false := by
  induction l with
  | nil =>
    constructor
    · intro h; simp [List.find?] at h
    · rintro ⟨i, -⟩; exact absurd i.isLt (by simp)
  | cons x xs ih =>
    cases hx : p x with
    | true =>
      rw [List.find?_cons_of_pos _ hx]
      constructor
      · intro h
        have hxa : x = a := by injection h
        subst hxa
        exact ⟨⟨0, Nat.succ_pos _⟩, rfl, hx,
          fun j hj => absurd hj (Nat.not_lt_zero _)⟩
      · rintro ⟨⟨iv, hiv⟩, hget, hpa, hearl⟩
        cases iv with
        | zero => exact congrArg some hget
        | succ k =>
          have h0 := hearl ⟨0, Nat.succ_pos _⟩ (Nat.succ_pos k)
          simp only [List.get] at h0
          rw [hx] at h0; cases h0
    | false =>
      rw [List.find?_cons_of_neg _ (by simp [hx])]
      rw [ih]
      constructor
      · rintro ⟨i, hget, hpa, hearl⟩
        refine ⟨⟨i.val + 1, Nat.succ_lt_succ i.isLt⟩, ?_, hpa, ?_⟩
        · simpa [List.get_cons_succ] using hget
        · rintro ⟨jv, hjv⟩ hlt
          cases jv with
          | zero => simpa using hx
          | succ m =>
            have hlt' : m + 1 < i.val + 1 := hlt
            have hm : m < xs.length := Nat.lt_of_succ_lt_succ hjv
            have := hearl ⟨m, hm⟩ (Nat.lt_of_succ_lt_succ hlt')
            simpa [List.get_cons_succ] using this
      · rintro ⟨⟨iv, hiv⟩, hget, hpa, hearl⟩
        cases iv with
        | zero =>
          exfalso
          simp only [List.get] at hget
          rw [hget, hpa] at hx; cases hx
        | succ k =>
          refine ⟨⟨k, Nat.lt_of_succ_lt_succ hiv⟩, ?_, hpa, ?_⟩
          · simpa [List.get_cons_succ] using hget
          · rintro ⟨jv, hjv⟩ hlt
            have hjv' : jv + 1 < (x :: xs).length := Nat.succ_lt_succ hjv
            have := hearl ⟨jv + 1, hjv'⟩ (Nat.succ_lt_succ hlt)
            simpa [List.get_cons_succ] using this

theorem routeMatches_congr (path : String) (method : HttpMethod)
    (subdomain : Option String) (r₁ r₂ : Route)
    (h1 : r₁.path = r₂.path) (h2 : r₁.method = r₂.method)
    (h3 : r₁.subdomain = r₂.subdomain)
    (h4 : regexMatchValue r₁.regex path = regexMatchValue r₂.regex path) :
    routeMatches path method subdomain r₁ = routeMatches path method subdomain r₂ := by
  unfold routeMatches
  rw [h1, h2, h3, h4]

theorem headers_foldl_append (hs : List (String × String)) :
    ∀ acc : String, ∃ t : String,
      hs.foldl (fun acc p => acc ++ (p.1 ++ ": " ++ p.2 ++ "\r\n")) acc = acc ++ t := by
  induction hs with
  | nil =>
    intro acc
    exact ⟨"", String.ext (by simp [String.data_append])⟩
  | cons h hs ih =>
    intro acc
    obtain ⟨t, ht⟩ := ih (acc ++ (h.1 ++ ": " ++ h.2 ++ "\r\n"))
    exact ⟨(h.1 ++ ": " ++ h.2 ++ "\r\n") ++ t,
      by simp only [List.foldl_cons, ht]; exact String.ext (by simp [String.data_append])⟩

theorem extendParams_cons (m : String → Option String) (kv : String × String)
    (kvs : List (String × String)) :
    extendParams m (kv :: kvs) =
      extendParams (fun x => if x = kv.1 then some kv.2 else m x) kvs := rfl

/-! ### Claim C1 -/

/-- C1: `find_route` returns exactly the first route in registration
order whose method equals the request method, whose subdomain is
exact-string equal to the resolved subdomain (`routeMatches`, where a
route with an unset subdomain matches only an unset request subdomain),
and whose path matches by exact equality, compiled-regex match, or
literal segment-wise comparison; of two routes identical in
path/method/subdomain (and regex behaviour on this path), the first
registered is always selected. -/
theorem find_route_first_match (routes : List Route) (path : String)
    (method : HttpMethod) (subdomain : Option String) :
    (∀ r : Route, find_route routes path method subdomain = some r ↔
      ∃ i : Fin routes.length, routes.get i = r ∧
        routeMatches path method subdomain r = true ∧
        ∀ j : Fin routes.length, j.val < i.val →
          routeMatches path method subdomain (routes.get j) = false) ∧
    (∀ r : Route, r.subdomain = none → ∀ s : Option String, s ≠ none →
      routeMatches path method s r = false) ∧
    (∀ i j : Fin routes.length, i.val < j.val →
      (routes.get i).path = (routes.get j).path →
      (routes.get i).method = (routes.get j).method →
      (routes.get i).subdomain = (routes.get j).subdomain →
      regexMatchValue (routes.get i).regex path =
        regexMatchValue (routes.get j).regex path →
      routeMatches path method subdomain (routes.get j) = true →
      (∀ k : Fin routes.length, k.val < j.val → routes.get k ≠ routes.get j) →
      find_route routes path method subdomain ≠ some (routes.get j)) := by
  refine ⟨fun r => find?_first _ routes r, ?_, ?_⟩
  · intro r hr s hs
    unfold routeMatches
    rw [hr]
    cases s with
    | none => exact absurd rfl hs
    | some v => simp
  · intro i j hij h1 h2 h3 h4 hmj hne hfind
    unfold find_route at hfind
    rw [find?_first] at hfind
    obtain ⟨k, hget, hpk, hearl⟩ := hfind
    have hmi : routeMatches path method subdomain (routes.get i) = true := by
      rw [routeMatches_congr path method subdomain (routes.get i) (routes.get j)
        h1 h2 h3 h4]
      exact hmj
    by_cases hki : i.val < k.val
    · have := hearl i hki
      rw [hmi] at this; cases this
    · have hkj : k.val < j.val := by omega
      exact hne k hkj hget

/-- A request used to separate the two identical witness routes by
their handlers. -/
def w1Req : Request := ⟨"/dup", .GET, none, noParams⟩

/-- First registered witness route for C1. -/
def w1RouteA : Route := ⟨none, "/dup", .GET, constHandler "A", none, []⟩

/-- Second registered witness route for C1: identical in
path/method/subdomain, different handler. -/
def w1RouteB : Route := ⟨none, "/dup", .GET, constHandler "B", none, []⟩

theorem w1RouteA_ne_w1RouteB : w1RouteA ≠ w1RouteB := by
  intro h
  have hb := congrArg (fun r => (r.handler w1Req).body) h
  simp [w1RouteA, w1RouteB, constHandler, Response.new] at hb

/-- Witness for C1: with two routes identical in path/method/subdomain
but different handlers, `find_route` never selects the second. -/
theorem find_route_first_match_witness :
    find_route [w1RouteA, w1RouteB] "/dup" HttpMethod.GET none ≠ some w1RouteB := by
  have h := (find_route_first_match [w1RouteA, w1RouteB] "/dup" HttpMethod.GET none).2.2
    ⟨0, by decide⟩ ⟨1, by decide⟩ (by decide) rfl rfl rfl rfl rfl
    (fun k hk => by
      have hk' : k.val < 1 := hk
      have hk0 : k = (⟨0, by decide⟩ : Fin 2) := Fin.ext (show k.val = 0 by omega)
      rw [hk0]
      exact w1RouteA_ne_w1RouteB)
  exact h

/-! ### Claim C2 -/

/-- Escaping of `/` as performed by `add_route`
(`regex_path.replace("/", r"\/")`). -/
def escSlash (s : String) : String :=
  ⟨replaceCharL '/' "\\/".data s.data⟩

/-- Counterexample to C2 as stated: for a path with two `:name`
segments the pattern built by `add_route` closes only the last capture
group (the `">[^/]+)"` suffix is appended once, at the very end), so it
is not the claimed per-segment form. -/
theorem storedPattern_counterexample :
    storedPatternString none "/a/:x/:y" = some "^\\/a\\/(?P<x\\/(?P<y>[^/]+)$" ∧
    specAutoPattern "/a/:x/:y" = "^\\/a\\/(?P<x>[^/]+)\\/(?P<y>[^/]+)$" ∧
    storedPatternString none "/a/:x/:y" ≠ some (specAutoPattern "/a/:x/:y") := by
  refine ⟨by decide, by decide, by decide⟩

/-- C2 amended: when the path's single `:` token is its final part
(prefix `p` free of `:`, name `n` free of `:` and `/`), the auto-derived
pattern is exactly the claimed form — the `:name` token becomes the
named capture `(?P<name>[^/]+)`, every literal `/` is escaped, and the
pattern is anchored at both ends; an explicit regex supplied at
registration is always stored instead. -/
theorem storedPattern_single_token (p n r path2 : String)
    (hp : ':' ∉ p.data) (hn1 : ':' ∉ n.data) (hn2 : '/' ∉ n.data) :
    storedPatternString none (p ++ ":" ++ n) =
      some ("^" ++ escSlash p ++ "(?P<" ++ n ++ ">[^/]+)$") ∧
    storedPatternString (some r) path2 = some r := by
  constructor
  · have hdata : (p ++ ":" ++ n).data = p.data ++ [':'] ++ n.data := by
      simp [String.data_append]
    have hmem : ':' ∈ (p ++ ":" ++ n).data := by
      rw [hdata]
      exact List.mem_append.2 (Or.inl (List.mem_append.2 (Or.inr (List.mem_singleton.2 rfl))))
    unfold storedPatternString
    rw [if_pos hmem]
    refine congrArg some (String.ext ?_)
    show ("^".data ++
        (replaceCharL '/' "\\/".data
          (replaceCharL ':' "(?P<".data (p ++ ":" ++ n).data) ++ ">[^/]+)".data) ++
        "$".data) = _
    rw [hdata]
    simp only [replaceCharL_append]
    have hcolon : replaceCharL ':' "(?P<".data [':'] = "(?P<".data := by decide
    rw [replaceCharL_of_not_mem _ hp, replaceCharL_of_not_mem _ hn1, hcolon]
    rw [replaceCharL_of_not_mem _ (show '/' ∉ "(?P<".data by decide)]
    rw [replaceCharL_of_not_mem _ hn2]
    show _ = ("^" ++ escSlash p ++ "(?P<" ++ n ++ ">[^/]+)$").data
    simp [String.data_append, escSlash, List.append_assoc]
  · rfl

/-- Witness for the amended C2: the single-trailing-token path
`/v1/orders/:order_id` yields exactly the anchored, slash-escaped
named-capture pattern. -/
theorem storedPattern_single_token_witness :
    storedPatternString none "/v1/orders/:order_id" =
      some "^\\/v1\\/orders\\/(?P<order_id>[^/]+)$" := by
  have h := (storedPattern_single_token "/v1/orders/" "order_id" "x" "x"
    (by decide) (by decide) (by decide)).1
  exact h.trans (by decide)

/-! ### Claim C3 -/

/-- The route `/u/:id` as registered with its auto-derived compiled
pattern, with a handler echoing the `id` parameter. -/
def cx3Route : Route := ⟨none, "/u/:id", .GET, echoIdHandler, some uIdRegex, []⟩

/-- A request for `/u/5` whose query parameters already bind `id` to
`9`. -/
def cx3Req : Request :=
  ⟨"/u/5", .GET, none, fun k => if k = "id" then some "9" else none⟩

/-- Counterexample to C3 as stated: the dispatcher's
`request.params.extend(route_params)` overwrites the existing query
parameter `id = 9` with the extracted path parameter `id = 5` even
though the two values differ — the handler observes `5`, not `9`. -/
theorem dispatch_overwrites_counterexample :
    (handleRouteResolution [cx3Route] [] cx3Req none).body = some "5" ∧
    cx3Req.params "id" = some "9" ∧ ("5" : String) ≠ "9" := by
  refine ⟨by decide, by decide, by decide⟩

/-- C3 amended: the merge the dispatcher performs on a successful match
is `HashMap::extend`, i.e. last-write-wins — a query parameter whose
name collides with an extracted path parameter is overwritten by the
(last) extracted value even when the values differ, and every query
parameter whose name is not among the extracted names is unchanged. -/
theorem extendParams_eq_mergeSpec (m : String → Option String)
    (kvs : List (String × String)) (k : String) :
    extendParams m kvs k = mergeSpec m kvs k := by
  induction kvs generalizing m with
  | nil => rfl
  | cons kv rest ih =>
    rw [extendParams_cons, ih]
    unfold mergeSpec
    rw [show (kv :: rest).reverse = rest.reverse ++ [kv] from by simp]
    rw [List.find?_append]
    cases hfind : rest.reverse.find? (fun p => decide (p.1 = k)) with
    | some p => simp [Option.or]
    | none =>
      simp only [Option.or]
      by_cases hk : kv.1 = k
      · simp [List.find?, hk]
      · simp [List.find?, hk, if_neg (show ¬(k = kv.1) from fun h => hk h.symm)]

/-! ### Claim C4 -/

/-- A route with no subdomain constraint, used to exhibit the wildcard
behaviour of `get_allowed_methods`. -/
def cx4Route : Route := ⟨none, "/a", .GET, constHandler "a", none, []⟩

/-- A second registration of the same path/method with a different
handler, used to exhibit the missing de-duplication. -/
def cx4Route2 : Route := ⟨none, "/a", .GET, constHandler "b", none, []⟩

/-- Counterexample to C4 as stated: a route with an unset subdomain is
counted for a request subdomain `x` it was not registered for, and a
twice-registered method is reported twice — `get_allowed_methods` is
neither restricted to the exact subdomain nor de-duplicated, diverging
from the spec-worded `allowedMethodsSpec`. -/
theorem get_allowed_methods_counterexample :
    get_allowed_methods [cx4Route] "/a" (some "x") = [HttpMethod.GET] ∧
    allowedMethodsSpec [cx4Route] "/a" (some "x") = [] ∧
    get_allowed_methods [cx4Route] "/a" (some "x") ≠
      allowedMethodsSpec [cx4Route] "/a" (some "x") ∧
    get_allowed_methods [cx4Route, cx4Route2] "/a" none =
      [HttpMethod.GET, HttpMethod.GET] ∧
    allowedMethodsSpec [cx4Route, cx4Route2] "/a" none = [HttpMethod.GET] := by
  refine ⟨by decide, by decide, by decide, by decide, by decide⟩

/-- C4 amended: `get_allowed_methods` returns, in registration order
and without de-duplication, the methods of exactly those routes whose
subdomain is unset or equal to the query subdomain and whose path is
exactly equal to or `:`-token-matches the query path; it is a
homomorphism with respect to concatenation of registrations. -/
theorem get_allowed_methods_spec (routes rs2 : List Route) (path : String)
    (subdomain : Option String) :
    (∀ m : HttpMethod, m ∈ get_allowed_methods routes path subdomain ↔
      ∃ r ∈ routes, r.method = m ∧ (r.subdomain = none ∨ r.subdomain = subdomain) ∧
        (r.path = path ∨ matchDynamicPath r.path path = true)) ∧
    get_allowed_methods (routes ++ rs2) path subdomain =
      get_allowed_methods routes path subdomain ++
        get_allowed_methods rs2 path subdomain := by
  constructor
  · intro m
    unfold get_allowed_methods
    simp only [List.mem_map, List.mem_filter, Bool.and_eq_true, Bool.or_eq_true,
      decide_eq_true_eq, Option.isNone_iff_eq_none]
    constructor
    · rintro ⟨r, ⟨hr, hsub, hpath⟩, hm⟩
      exact ⟨r, hr, hm, hsub, hpath⟩
    · rintro ⟨r, hr, hm, hsub, hpath⟩
      exact ⟨r, ⟨hr, hsub, hpath⟩, hm⟩
  · unfold get_allowed_methods
    rw [List.filter_append, List.map_append]

/-- Witness for the amended C4: the characterization applied at a
concrete table shows `GET` reported for `/a` with no subdomain. -/
theorem get_allowed_methods_spec_witness :
    HttpMethod.GET ∈ get_allowed_methods [cx4Route] "/a" none := by
  exact ((get_allowed_methods_spec [cx4Route] [] "/a" none).1 HttpMethod.GET).mpr
    ⟨cx4Route, by simp, rfl, Or.inl rfl, Or.inl rfl⟩

/-! ### Claim C5 -/

/-- The route `/u/:id` (auto-derived pattern) registered for `GET`,
used to probe the 405 decision with a `POST` request. -/
def cx5Route : Route := ⟨none, "/u/:id", .GET, constHandler "u", none, []⟩

/-- A `POST` request for `/u/5`, a path known only via the `:`-token
match of `/u/:id`. -/
def cx5Req : Request := ⟨"/u/5", .POST, none, noParams⟩

/-- Counterexample to C5 as stated: `/u/5` is known to the table via
the `:`-token match of the `GET` route `/u/:id`, yet a `POST` for it
yields 404, not 405 — the dispatcher's "path known" test is exact
string equality only. -/
theorem dispatch_405_counterexample :
    matchDynamicPath "/u/:id" "/u/5" = true ∧
    (handleRouteResolution [cx5Route] [] cx5Req none).status_code = 404 ∧
    (handleRouteResolution [cx5Route] [] cx5Req none).status_code ≠ 405 := by
  refine ⟨by decide, by decide, by decide⟩

/-- C5 amended: when no route matches, the dispatcher answers 405 (with
an `Allow` header built from `get_allowed_methods`) exactly when some
route's path and subdomain are exactly string-equal to the request's;
a path known only via `:`-token or regex matching yields 404. -/
theorem dispatch_method_mismatch (routes : List Route)
    (gmws : List (Request → Option Response)) (req : Request) (sub : Option String)
    (hmw : runMiddlewares gmws req = none)
    (hslash : endsWithSlash req.path = false)
    (hfind : find_route routes req.path req.method sub = none) :
    (routes.any (fun r =>
        decide (r.subdomain = sub) && decide (r.path = req.path)) = true →
      handleRouteResolution routes gmws req sub =
        (Response.new 405 (some "Method Not Allowed")).withHeader "Allow"
          (joinSep ", " ((get_allowed_methods routes req.path sub).map
            HttpMethod.toStr))) ∧
    (routes.any (fun r =>
        decide (r.subdomain = sub) && decide (r.path = req.path)) = false →
      handleRouteResolution routes gmws req sub =
        Response.new 404 (some "Not Found")) := by
  have hcond : ¬(endsWithSlash req.path = true ∧ req.path ≠ "/" ∧
      (find_route routes (trimEndSlashes req.path) req.method sub).isSome = true) := by
    rintro ⟨h1, -, -⟩
    rw [hslash] at h1
    cases h1
  constructor
  · intro hany
    simp only [handleRouteResolution, hmw]
    rw [if_neg hcond]
    simp only [hfind]
    unfold dispatchUnmatched
    rw [if_pos hany]
  · intro hany
    simp only [handleRouteResolution, hmw]
    rw [if_neg hcond]
    simp only [hfind]
    unfold dispatchUnmatched
    rw [if_neg (by rw [hany]; simp)]

/-- Witness target route: `GET /a`. -/
def w5Route : Route := ⟨none, "/a", .GET, constHandler "a", none, []⟩

/-- Witness request: `POST /a`. -/
def w5Req : Request := ⟨"/a", .POST, none, noParams⟩

/-- Witness for the amended C5: a `POST` to the exactly-registered path
`/a` produces 405 with the `Allow` header built from
`get_allowed_methods`. -/
theorem dispatch_method_mismatch_witness :
    handleRouteResolution [w5Route] [] w5Req none =
      (Response.new 405 (some "Method Not Allowed")).withHeader "Allow"
        (joinSep ", " ((get_allowed_methods [w5Route] "/a" none).map
          HttpMethod.toStr)) := by
  exact (dispatch_method_mismatch [w5Route] [] w5Req none rfl (by decide)
    rfl).1 (by decide)

/-! ### Claim C6 -/

/-- C6: the static asset guard denies a requested path containing
`..`, `./` or `.\`, one beginning with `/` or `\`, one whose resolved
entry is a symlink (unconditionally), and one whose canonicalized
joined path does not start with the canonicalized root; it resolves a
clean relative path to the canonicalized file under the root. -/
theorem sanitize_static_path_spec (fs : FileSys) (reqf sd : String) :
    (strContains reqf ".." = true ∨ strContains reqf "./" = true ∨
        strContains reqf ".\\" = true →
      sanitize_static_path fs reqf sd = none) ∧
    (startsWithChar '/' reqf = true ∨ startsWithChar '\\' reqf = true →
      sanitize_static_path fs reqf sd = none) ∧
    (∀ root, fs.canonicalize sd = some root →
      fs.isSymlink (root ++ "/" ++ reqf) = some true →
      sanitize_static_path fs reqf sd = none) ∧
    (∀ root c, fs.canonicalize sd = some root →
      fs.isSymlink (root ++ "/" ++ reqf) = some false →
      fs.canonicalize (root ++ "/" ++ reqf) = some c →
      pathStartsWith root c = false →
      sanitize_static_path fs reqf sd = none) ∧
    (∀ root c,
      strContains reqf ".." = false → strContains reqf "./" = false →
      strContains reqf ".\\" = false →
      startsWithChar '/' reqf = false → startsWithChar '\\' reqf = false →
      fs.canonicalize sd = some root →
      fs.isSymlink (root ++ "/" ++ reqf) = some false →
      fs.canonicalize (root ++ "/" ++ reqf) = some c →
      pathStartsWith root c = true →
      sanitize_static_path fs reqf sd = some c) := by
  refine ⟨?_, ?_, ?_, ?_, ?_⟩
  · intro h
    unfold sanitize_static_path
    rw [if_pos h]
  · intro h
    unfold sanitize_static_path
    by_cases h1 : strContains reqf ".." = true ∨ strContains reqf "./" = true ∨
        strContains reqf ".\\" = true
    · rw [if_pos h1]
    · rw [if_neg h1, if_pos h]
  · intro root hroot hsym
    unfold sanitize_static_path
    by_cases h1 : strContains reqf ".." = true ∨ strContains reqf "./" = true ∨
        strContains reqf ".\\" = true
    · rw [if_pos h1]
    · rw [if_neg h1]
      by_cases h2 : startsWithChar '/' reqf = true ∨ startsWithChar '\\' reqf = true
      · rw [if_pos h2]
      · rw [if_neg h2]
        simp only [hroot, hsym]
  · intro root c hroot hsym hc hps
    unfold sanitize_static_path
    by_cases h1 : strContains reqf ".." = true ∨ strContains reqf "./" = true ∨
        strContains reqf ".\\" = true
    · rw [if_pos h1]
    · rw [if_neg h1]
      by_cases h2 : startsWithChar '/' reqf = true ∨ startsWithChar '\\' reqf = true
      · rw [if_pos h2]
      · rw [if_neg h2]
        simp only [hroot, hsym, hc]
        rw [if_neg (by rw [hps]; simp)]
  · intro root c hs1 hs2 hs3 hw1 hw2 hroot hsym hc hps
    unfold sanitize_static_path
    rw [if_neg (by simp [hs1, hs2, hs3])]
    rw [if_neg (by simp [hw1, hw2])]
    simp only [hroot, hsym, hc]
    rw [if_pos hps]

/-- A concrete filesystem with `/srv/static` as the canonical root and
a single regular (non-symlink) file `css/app.css` beneath it. -/
def w6Fs : FileSys where
  canonicalize := fun s =>
    if s = "static" then some "/srv/static"
    else if s = "/srv/static/css/app.css" then some "/srv/static/css/app.css"
    else none
  isSymlink := fun s =>
    if s = "/srv/static/css/app.css" then some false else none

/-- Witness for C6: `css/app.css` resolves to the canonical file under
the root, while `../secret` is denied. -/
theorem sanitize_static_path_spec_witness :
    sanitize_static_path w6Fs "css/app.css" "static" =
      some "/srv/static/css/app.css" ∧
    sanitize_static_path w6Fs "../secret" "static" = none := by
  constructor
  · exact (sanitize_static_path_spec w6Fs "css/app.css" "static").2.2.2.2
      "/srv/static" "/srv/static/css/app.css" (by decide) (by decide) (by decide)
      (by decide) (by decide) (by decide) (by decide) (by decide) (by decide)
  · exact (sanitize_static_path_spec w6Fs "../secret" "static").1
      (Or.inl (by decide))

/-! ### Claim C7 -/

/-- C7: for a request path ending in `/` (and not exactly `/`), the
dispatcher answers 301 with `Location` set to the trimmed path exactly
when the trimmed path matches a registered route for the request's
method and subdomain; otherwise it proceeds to normal matching, and an
unknown path yields 404, never a redirect. -/
theorem dispatch_trailing_slash (routes : List Route)
    (gmws : List (Request → Option Response)) (req : Request) (sub : Option String)
    (hmw : runMiddlewares gmws req = none)
    (hend : endsWithSlash req.path = true)
    (hne : req.path ≠ "/") :
    ((find_route routes (trimEndSlashes req.path) req.method sub).isSome = true →
      handleRouteResolution routes gmws req sub =
        (Response.new 301 none).withHeader "Location" (trimEndSlashes req.path)) ∧
    (find_route routes (trimEndSlashes req.path) req.method sub = none →
      find_route routes req.path req.method sub = none →
      routes.any (fun r =>
        decide (r.subdomain = sub) && decide (r.path = req.path)) = false →
      handleRouteResolution routes gmws req sub =
        Response.new 404 (some "Not Found")) := by
  constructor
  · intro hsome
    simp only [handleRouteResolution, hmw]
    rw [if_pos ⟨hend, hne, hsome⟩]
  · intro htrim hfull hany
    simp only [handleRouteResolution, hmw]
    rw [if_neg (by rintro ⟨-, -, h3⟩; rw [htrim] at h3; cases h3)]
    simp only [hfull]
    unfold dispatchUnmatched
    rw [if_neg (by rw [hany]; simp)]

/-- Witness route `GET /about`. -/
def w7Route : Route := ⟨none, "/about", .GET, constHandler "about", none, []⟩

/-- Witness request `GET /about/`. -/
def w7Req : Request := ⟨"/about/", .GET, none, noParams⟩

/-- Witness for C7: `/about/` redirects with 301 and
`Location: /about` because `/about` is registered. -/
theorem dispatch_trailing_slash_witness :
    handleRouteResolution [w7Route] [] w7Req none =
      (Response.new 301 none).withHeader "Location" "/about" := by
  have h := (dispatch_trailing_slash [w7Route] [] w7Req none rfl (by decide)
    (by decide)).1 (by decide)
  exact h.trans (by decide)

/-! ### Claim C8 -/

/-- The route of claim C8 registered with the explicit pattern
`^[a-zA-Z0-9_-]+$` exactly as the claim states it. -/
def cx8Route : Route :=
  ⟨none, "/v1/orders/:order_id", .GET, orderHandler, some orderSegRegex, []⟩

/-- A `GET` request for the valid order id of claim C8. -/
def cx8Req : Request := ⟨"/v1/orders/order-123_456", .GET, none, noParams⟩

/-- Counterexample to C8 as stated: with the explicit pattern
`^[a-zA-Z0-9_-]+$`, the dispatcher's full-path regex re-check fails on
`/v1/orders/order-123_456` (the path contains `/`), so even the valid
id is answered 404 rather than dispatched with 200. -/
theorem dispatch_order_counterexample :
    (handleRouteResolution [cx8Route] [] cx8Req none).status_code = 404 ∧
    (handleRouteResolution [cx8Route] [] cx8Req none).status_code ≠ 200 := by
  refine ⟨by decide, by decide⟩

/-- The same route registered with the full-path pattern
`^/v1/orders/(?P<order_id>[a-zA-Z0-9_-]+)$`, which is what the
repository's `regex_dynamic` test actually uses. -/
def w8Route : Route :=
  ⟨none, "/v1/orders/:order_id", .GET, orderHandler, some orderFullRegex, []⟩

/-- A `GET` request whose order id segment contains a space. -/
def w8ReqBad : Request := ⟨"/v1/orders/order id", .GET, none, noParams⟩

/-- C8 amended: with the full-path pattern
`^/v1/orders/(?P<order_id>[a-zA-Z0-9_-]+)$`, the request for
`/v1/orders/order-123_456` is dispatched to the handler (200, body
contains the id) and a request whose order id segment contains a space
is rejected with 404. -/
theorem dispatch_order_regex_amended :
    (handleRouteResolution [w8Route] [] cx8Req none).status_code = 200 ∧
    strContains (((handleRouteResolution [w8Route] [] cx8Req none).body).getD "")
      "order-123_456" = true ∧
    (handleRouteResolution [w8Route] [] w8ReqBad none).status_code = 404 := by
  refine ⟨by decide, by decide, by decide⟩

/-! ### Claim C10 -/

/-- C10: the serialized status line is always the literal
`HTTP/1.1 <status_code> OK` — the reason phrase is `OK` for every
status code, error responses included. -/
theorem format_response_status_line (r : Response) :
    ∃ rest : String, format_response r =
      "HTTP/1.1 " ++ toString r.status_code ++ " OK\r\n" ++ rest := by
  obtain ⟨t, ht⟩ := headers_foldl_append r.headers
    ("HTTP/1.1 " ++ toString r.status_code ++ " OK\r\n")
  cases hb : r.body with
  | some b =>
    refine ⟨t ++ "\r\n" ++ b, ?_⟩
    unfold format_response
    rw [hb]
    simp only [ht]
    exact String.ext (by simp [String.data_append])
  | none =>
    refine ⟨t ++ "\r\n", ?_⟩
    unfold format_response
    rw [hb]
    simp only [ht]
    exact String.ext (by simp [String.data_append])

end Cargoal
